import Mathlib

/-!
Verification development for the Vox multi-agent forecasting bot.

The Python source is shallowly embedded:
* Python floats are modelled as `ℚ` in the parsing / CDF / cache code
  (only field operations and comparisons occur there) and as `ℝ` in the
  logit-space aggregation code (which uses `log` and `exp`).
* Fallible code (a Python `ValueError` raised by `float(...)` on a
  malformed group, or by `weighted_average` on a length mismatch) is
  modelled with `Except Unit`.
* The LLM remote call is an external oracle; the critique text it returns
  for a peer review is abstracted as a record of the reviewing agent and
  the forecast object embedded in the prompt.
-/

namespace Vox

/-! ## bot/utils.py : normalize_probability, weighted_average, logit -/

/-- `normalize_probability` (utils.py 38-39): clamp into [0.01, 0.99]. -/
def normalize_probability (prob : ℚ) : ℚ :=
  max 0.01 (min 0.99 prob)

/-- `weighted_average` (utils.py 42-54) over the reals (it is applied to
logits).  `Except.error ()` models the raised `ValueError` on a length
mismatch; empty inputs and a zero total weight return `0.5`. -/
noncomputable def weighted_average (probabilities weights : List ℝ) : Except Unit ℝ :=
  if probabilities = [] ∨ weights = [] then .ok 0.5
  else if probabilities.length ≠ weights.length then .error ()
  else
    let total_weight := weights.sum
    if total_weight = 0 then .ok 0.5
    else .ok (((probabilities.zip weights).map (fun pw => pw.1 * pw.2)).sum / total_weight)

/-- `logit` (utils.py 126-128): clamp into [0.0001, 0.9999], then log-odds. -/
noncomputable def logit (p : ℝ) : ℝ :=
  Real.log (max 0.0001 (min 0.9999 p) / (1 - max 0.0001 (min 0.9999 p)))

/-- `inv_logit` (utils.py 131-132). -/
noncomputable def inv_logit (x : ℝ) : ℝ :=
  1 / (1 + Real.exp (-x))

/-- `aggregate_logit_space` (utils.py 135-138). -/
noncomputable def aggregate_logit_space (probabilities weights : List ℝ) : Except Unit ℝ :=
  (weighted_average (probabilities.map logit) weights).map inv_logit

/-! ## bot/agents.py : committee model -/

/-- An agent, reduced to the fields the committee protocol reads. -/
structure AgentM where
  name : String
  weight : ℚ
deriving DecidableEq

/-- An agent forecast, reduced to the fields the peer-review prompt embeds. -/
structure AgentForecastM where
  agent_name : String
  final_probability : ℚ
deriving DecidableEq

/-- A critique returned by `LLMAgent.peer_review` (agents.py 94-121).  The
LLM call is an external oracle; the critique is abstracted as the reviewing
agent's name together with the forecast object whose data the prompt embeds. -/
structure CritiqueM where
  author : String
  subject : AgentForecastM
deriving DecidableEq

def peer_review (agent : AgentM) (other : AgentForecastM) : CritiqueM :=
  ⟨agent.name, other⟩

def defaultAgent : AgentM := ⟨"", 0⟩

def defaultForecast : AgentForecastM := ⟨"", 0⟩

def defaultCritique : CritiqueM := ⟨"", defaultForecast⟩

/-- `run_peer_reviews` (agents.py 225-241): agent `i` critiques
`forecasts[(i+1) % n]`. -/
def run_peer_reviews (agents : List AgentM) (forecasts : List AgentForecastM) :
    List CritiqueM :=
  let n := agents.length
  (List.range n).map (fun i =>
    peer_review (agents.getD i defaultAgent) (forecasts.getD ((i + 1) % n) defaultForecast))

/-- The result of `LLMAgent.revise_forecast` (agents.py 123-155), keeping the
critique that was passed in (stored as `peer_critique` in the source). -/
structure RevisedM where
  agent_name : String
  initial : AgentForecastM
  peer_critique : CritiqueM
deriving DecidableEq

def revise_forecast (agent : AgentM) (initial : AgentForecastM)
    (critique : CritiqueM) : RevisedM :=
  ⟨agent.name, initial, critique⟩

def defaultRevised : RevisedM := ⟨"", defaultForecast, defaultCritique⟩

/-- `run_revisions` (agents.py 244-256): `zip(agents, forecasts, critiques)`,
so agent `i` is revised with `critiques[i]`. -/
def run_revisions (agents : List AgentM) (forecasts : List AgentForecastM)
    (critiques : List CritiqueM) : List RevisedM :=
  (agents.zip (forecasts.zip critiques)).map
    (fun afc => revise_forecast afc.1 afc.2.1 afc.2.2)

/-! ## research/adj_client.py : ResponseCache -/

/-- A cache entry: hashed key, insertion timestamp, cached data
(adj_client.py 56).  The md5 key hash is modelled as the identity on keys
(an injective key transform; collisions could only merge entries). -/
structure CacheEntry where
  key : String
  timestamp : ℕ
  data : String
deriving DecidableEq

def insertByTs (x : CacheEntry) : List CacheEntry → List CacheEntry
  | [] => [x]
  | y :: ys => if x.timestamp < y.timestamp then x :: y :: ys else y :: insertByTs x ys

/-- `sorted(self.cache.keys(), key=timestamp)` (adj_client.py 49-51). -/
def sortByTs : List CacheEntry → List CacheEntry
  | [] => []
  | x :: xs => insertByTs x (sortByTs xs)

/-- `ResponseCache.set` (adj_client.py 44-57): when the store has reached
`max_size`, drop the oldest `len // 4` entries by timestamp, then insert
(replacing any entry with the same key, as the dict assignment does). -/
def cacheSet (max_size : ℕ) (store : List CacheEntry) (key : String)
    (now : ℕ) (data : String) : List CacheEntry :=
  let store1 :=
    if max_size ≤ store.length then (sortByTs store).drop (store.length / 4)
    else store
  store1.filter (fun e => e.key ≠ key) ++ [⟨key, now, data⟩]

/-- A whole sequence of `set` operations, run from a starting store. -/
def cacheSetAll (max_size : ℕ) (store : List CacheEntry)
    (ops : List (String × ℕ × String)) : List CacheEntry :=
  ops.foldl (fun st op => cacheSet max_size st op.1 op.2.1 op.2.2) store

/-! ## bot/utils.py : regex-based extraction

The four `re.search` patterns of `parse_probability`, and the patterns of
`parse_median`, are embedded as explicit leftmost-match scanners over
`List Char`.  Greedy/lazy quantifiers and the backtracking alternatives that
can actually succeed for these particular patterns are spelled out. -/

/-- Python `\s` restricted to the ASCII whitespace characters. -/
def isSpaceChar (c : Char) : Bool :=
  c = ' ' || c = '\t' || c = '\n' || c = '\r' || c = '\x0b' || c = '\x0c'

/-- The character class `[\d.]`. -/
def isDigitDot (c : Char) : Bool :=
  c.isDigit || c = '.'

def digitVal (c : Char) : ℕ := c.toNat - 48

def natOfDigits (l : List Char) : ℕ :=
  l.foldl (fun a c => 10 * a + digitVal c) 0

/-- Python `float()` on a group made of digits and dots: at most one dot and
at least one digit, else a `ValueError` (modelled as `none`). -/
def pyFloat (g : List Char) : Option ℚ :=
  let intPart := g.takeWhile Char.isDigit
  let rest := g.dropWhile Char.isDigit
  match rest with
  | [] => if intPart.isEmpty then none else some (natOfDigits intPart)
  | c :: frac =>
    if c = '.' ∧ frac.all Char.isDigit ∧ ¬(intPart.isEmpty ∧ frac.isEmpty) then
      some ((natOfDigits intPart : ℚ) + (natOfDigits frac : ℚ) / 10 ^ frac.length)
    else none

/-- Case-insensitive literal match (the pattern is given in lowercase);
returns the remaining input on success. -/
def matchCI : List Char → List Char → Option (List Char)
  | [], l => some l
  | _ :: _, [] => none
  | p :: ps, c :: cs => if c.toLower = p then matchCI ps cs else none

/-- `re.search` semantics: try the position matcher at every start position,
leftmost success wins. -/
def searchAt {α : Type} (f : List Char → Option α) : List Char → Option α
  | [] => f []
  | c :: t =>
    match f (c :: t) with
    | some r => some r
    | none => searchAt f t

/-- One position of `PROBABILITY:\s*([\d.]+)` (IGNORECASE): the literal,
then `\s*`, then a nonempty greedy run of `[\d.]`. -/
def tryProbabilityAt (l : List Char) : Option (List Char) :=
  match matchCI "probability:".data l with
  | none => none
  | some rest =>
    let g := (rest.dropWhile isSpaceChar).takeWhile isDigitDot
    if g.isEmpty then none else some g

/-- Greedy `\d+(?:\.\d+)?` at a position: the digits, the optional fraction
(with the rest of the input after each of the two alternatives). -/
def numGroupAt (l : List Char) :
    Option ((List Char × List Char) × Option (List Char × List Char)) :=
  let d := l.takeWhile Char.isDigit
  if d.isEmpty then none
  else
    let r1 := l.dropWhile Char.isDigit
    let withFrac :=
      match r1 with
      | '.' :: r2 =>
        let f := r2.takeWhile Char.isDigit
        if f.isEmpty then none
        else some (d ++ '.' :: f, r2.dropWhile Char.isDigit)
      | _ => none
    some ((d, r1), withFrac)

/-- One position of `(\d+(?:\.\d+)?)\s*%`: the optional fraction is
preferred, and the engine backtracks to the bare `\d+` when `%` fails;
a shorter digit run can never help (the next char would be a digit). -/
def tryPercentAt (l : List Char) : Option (List Char) :=
  match numGroupAt l with
  | none => none
  | some ((d, r1), withFrac) =>
    let percentAfter : List Char → Bool := fun rest =>
      match rest.dropWhile isSpaceChar with
      | '%' :: _ => true
      | _ => false
    match withFrac with
    | some (g, rest) =>
      if percentAfter rest then some g
      else if percentAfter r1 then some d else none
    | none => if percentAfter r1 then some d else none

/-- The tail `\s*(?:in|out of)\s*(\d+)` of the odds pattern (IGNORECASE);
returns the second group. -/
def oddsTail (rest : List Char) : Option (List Char) :=
  let r2 := rest.dropWhile isSpaceChar
  match matchCI "in".data r2 <|> matchCI "out of".data r2 with
  | none => none
  | some r3 =>
    let g2 := (r3.dropWhile isSpaceChar).takeWhile Char.isDigit
    if g2.isEmpty then none else some g2

/-- One position of `(\d+(?:\.\d+)?)\s*(?:in|out of)\s*(\d+)` (IGNORECASE). -/
def tryInOddsAt (l : List Char) : Option (List Char × List Char) :=
  match numGroupAt l with
  | none => none
  | some ((d, r1), withFrac) =>
    match withFrac with
    | some (g, rest) =>
      match oddsTail rest with
      | some g2 => some (g, g2)
      | none =>
        match oddsTail r1 with
        | some g2 => some (d, g2)
        | none => none
    | none =>
      match oddsTail r1 with
      | some g2 => some (d, g2)
      | none => none

/-- The lazy `.*?` before the group of the odds/chance/likelihood pattern:
skip to the first digit on the same line (`.` does not match `\n`). -/
def seekDigitSameLine : List Char → Option (List Char)
  | [] => none
  | c :: t =>
    if c.isDigit then some (c :: t)
    else if c = '\n' then none
    else seekDigitSameLine t

/-- Greedy `\d+(?:\.\d+)?` as a plain group (nothing follows it). -/
def numGroup (l : List Char) : List Char :=
  let d := l.takeWhile Char.isDigit
  match l.dropWhile Char.isDigit with
  | '.' :: r2 =>
    let f := r2.takeWhile Char.isDigit
    if f.isEmpty then d else d ++ '.' :: f
  | _ => d

/-- One position of `(?:odds|chance|likelihood).*?(\d+(?:\.\d+)?)`
(IGNORECASE, no DOTALL). -/
def tryChanceAt (l : List Char) : Option (List Char) :=
  match matchCI "odds".data l <|> matchCI "chance".data l <|>
      matchCI "likelihood".data l with
  | none => none
  | some rest =>
    match seekDigitSameLine rest with
    | none => none
    | some atDigit => some (numGroup atDigit)

/-- `parse_probability` (utils.py 8-35): the four patterns tried in order;
`Except.error ()` is the `ValueError` raised by `float()` on a malformed
`[\d.]+` group; `.ok none` is the Python `None`. -/
def parse_probability (text : String) : Except Unit (Option ℚ) :=
  match searchAt tryProbabilityAt text.data with
  | some g =>
    match pyFloat g with
    | some v => .ok (some (normalize_probability v))
    | none => .error ()
  | none =>
  match searchAt tryPercentAt text.data with
  | some g =>
    match pyFloat g with
    | some v => .ok (some (normalize_probability (v / 100)))
    | none => .error ()
  | none =>
  match searchAt tryInOddsAt text.data with
  | some g12 =>
    match pyFloat g12.1, pyFloat g12.2 with
    | some num, some denom =>
      if 0 < denom then .ok (some (normalize_probability (num / denom)))
      else
        -- `denom > 0` fails: the branch returns nothing and the code
        -- falls through to the fourth pattern
        match searchAt tryChanceAt text.data with
        | some g =>
          match pyFloat g with
          | some v => .ok (some (normalize_probability (if 1 < v then v / 100 else v)))
          | none => .error ()
        | none => .ok none
    | _, _ => .error ()
  | none =>
  match searchAt tryChanceAt text.data with
  | some g =>
    match pyFloat g with
    | some v => .ok (some (normalize_probability (if 1 < v then v / 100 else v)))
    | none => .error ()
  | none => .ok none

/-- Python `x or default` for an optional float: `None` and `0.0` both fall
back to the default. -/
def pyOr (v : Option ℚ) (dflt : ℚ) : ℚ :=
  match v with
  | none => dflt
  | some x => if x = 0 then dflt else x

/-- The probability computed by `LLMAgent.forecast` (agents.py 82):
`parse_probability(response) or 0.5`. -/
def forecastProbability (response : String) : Except Unit ℚ :=
  (parse_probability response).map (fun v => pyOr v 0.5)

/-- The probability computed by `LLMAgent.revise_forecast` (agents.py
142-144): `parse_probability(response) or initial_forecast.initial_probability`. -/
def reviseProbability (response : String) (initial_probability : ℚ) : Except Unit ℚ :=
  (parse_probability response).map (fun v => pyOr v initial_probability)

/-- One position of `MEDIAN:\s*([\d.]+)` (IGNORECASE). -/
def tryMedianAt (l : List Char) : Option (List Char) :=
  match matchCI "median:".data l with
  | none => none
  | some rest =>
    let g := (rest.dropWhile isSpaceChar).takeWhile isDigitDot
    if g.isEmpty then none else some g

/-- `parse_median` (utils.py 66-70). -/
def parse_median (text : String) : Except Unit (Option ℚ) :=
  match searchAt tryMedianAt text.data with
  | some g =>
    match pyFloat g with
    | some v => .ok (some v)
    | none => .error ()
  | none => .ok none

/-- The `final_probability` computed by `Forecaster._forecast_numeric_agent`
(forecaster.py 237): `median or (lower_bound + upper_bound) / 2`. -/
def numericFinalProbability (response : String) (lower_bound upper_bound : ℚ) :
    Except Unit ℚ :=
  (parse_median response).map (fun m => pyOr m ((lower_bound + upper_bound) / 2))

/-! ## bot/utils.py : cdf_from_percentiles -/

/-- Insertion step of `sorted` on (key, value) pairs in Python's ascending
lexicographic tuple order. -/
def insertPair (x : ℕ × ℚ) : List (ℕ × ℚ) → List (ℕ × ℚ)
  | [] => [x]
  | y :: ys =>
    if x.1 < y.1 ∨ (x.1 = y.1 ∧ x.2 ≤ y.2) then x :: y :: ys
    else y :: insertPair x ys

/-- `sorted(percentiles.items())` (utils.py 98). -/
def sortPairs : List (ℕ × ℚ) → List (ℕ × ℚ)
  | [] => []
  | x :: xs => insertPair x (sortPairs xs)

/-- Grid point `x = lower + (upper - lower) * i / 200` (utils.py 101). -/
def gridPoint (lower upper : ℚ) (i : ℕ) : ℚ :=
  lower + (upper - lower) * i / 200

/-- The inner `for j, (p, val) in enumerate(sorted_p)` loop with its `break`
and `else` (utils.py 103-115): `prev` is the pair before the current one
(`none` while `j == 0`), and a completed loop yields `1.0`. -/
def scanPairs (x lower : ℚ) (prev : Option (ℕ × ℚ)) : List (ℕ × ℚ) → ℚ
  | [] => 1
  | (p, val) :: rest =>
    if x < val then
      match prev with
      | none => if val = lower then 0 else (p : ℚ) / 100 * (x - lower) / (val - lower)
      | some pv =>
        let t := if val = pv.2 then 0 else (x - pv.2) / (val - pv.2)
        ((pv.1 : ℚ) + t * ((p : ℚ) - (pv.1 : ℚ))) / 100
    else scanPairs x lower (some (p, val)) rest

/-- The 201 grid values before pinning and the max-scan (utils.py 100-115). -/
def cdfRaw (percentiles : List (ℕ × ℚ)) (lower upper : ℚ) : List ℚ :=
  (List.range 201).map
    (fun i => scanPairs (gridPoint lower upper i) lower none (sortPairs percentiles))

/-- The forward max-scan `cdf[i] = max(cdf[i], cdf[i-1])` (utils.py 120-121). -/
def maxScan (prev : ℚ) : List ℚ → List ℚ
  | [] => []
  | x :: xs => max prev x :: maxScan (max prev x) xs

/-- `cdf_from_percentiles` (utils.py 94-123): grid values, endpoints pinned to
0.0 and 1.0, then the forward max-scan. -/
def cdf_from_percentiles (percentiles : List (ℕ × ℚ)) (lower upper : ℚ) : List ℚ :=
  match (cdfRaw percentiles lower upper).set 0 0 |>.set 200 1 with
  | [] => []
  | x :: xs => x :: maxScan x xs

/-! ## bot/forecaster.py : aggregation -/

/-- An agent forecast as consumed by the aggregation methods. -/
structure AgentForecastW where
  agent_name : String
  weight : ℚ
deriving DecidableEq

/-- `Forecaster._aggregate_cdfs` (forecaster.py 246-258): the locals
`weights` and `total_weight` are computed but unused in the source, the
`for forecast in forecasts` loop body is `pass`, and the list of 201 zeros
is returned unchanged. -/
def aggregate_cdfs (forecasts : List AgentForecastW) (lower upper : ℚ) : List ℚ :=
  let weights := forecasts.map (·.weight)
  let total_weight := weights.sum
  let aggregated := List.replicate 201 (0 : ℚ)
  forecasts.foldl (fun acc _ => acc) aggregated

/-- `Forecaster._aggregate_multiple_choice` (forecaster.py 260-263): a
uniform distribution over the options, ignoring the forecasts. -/
def aggregate_multiple_choice (forecasts : List AgentForecastW)
    (options : List String) : List (String × ℚ) :=
  options.map (fun opt => (opt, 1 / (options.length : ℚ)))

/-- The per-agent renormalization inside `forecast_multiple_choice`
(forecaster.py 174-177): divide by the raw sum when it is positive. -/
def perAgentOptionProbs (raw : List (String × ℚ)) : List (String × ℚ) :=
  let total := (raw.map (·.2)).sum
  if 0 < total then raw.map (fun kv => (kv.1, kv.2 / total)) else raw

/-- Dictionary lookup (0 when the key is absent). -/
def lookupQ : List (String × ℚ) → String → ℚ
  | [], _ => 0
  | kv :: rest, k => if kv.1 = k then kv.2 else lookupQ rest k

/-- Spec-side definition, from the specification's words: the final numeric
CDF is the grid-point-wise weighted mean of the per-agent 201-point CDF
vectors, with the weights normalized to sum to 1. -/
def specAggregateCdfs (agents : List (List (ℕ × ℚ) × ℚ)) (lower upper : ℚ) :
    List ℚ :=
  let tw := (agents.map (·.2)).sum
  (List.range 201).map (fun i =>
    (agents.map
      (fun a => a.2 * ((cdf_from_percentiles a.1 lower upper).getD i 0))).sum / tw)

/-- Spec-side definition, from the specification's words: per-agent option
distributions are renormalized (uniform when the raw sum is zero), averaged
by agent weight, then renormalized once more. -/
def specAggregateMC (agents : List (List (String × ℚ) × ℚ))
    (options : List String) : List (String × ℚ) :=
  let tw := (agents.map (·.2)).sum
  let dist : List (String × ℚ) → List (String × ℚ) := fun raw =>
    let total := (raw.map (·.2)).sum
    if 0 < total then raw.map (fun kv => (kv.1, kv.2 / total))
    else options.map (fun o => (o, 1 / (options.length : ℚ)))
  let avg := options.map (fun o =>
    (o, (agents.map (fun a => a.2 * lookupQ (dist a.1) o)).sum / tw))
  let s := (avg.map (·.2)).sum
  avg.map (fun kv => (kv.1, kv.2 / s))

/-! ## Helper lemmas -/

lemma mem_insertPair {z x : ℕ × ℚ} : ∀ {l : List (ℕ × ℚ)},
    z ∈ insertPair x l → z = x ∨ z ∈ l := by
  intro l
  induction l with
  | nil => intro h; simpa [insertPair] using h
  | cons y ys ih =>
    intro h
    by_cases hc : x.1 < y.1 ∨ (x.1 = y.1 ∧ x.2 ≤ y.2)
    · rw [insertPair, if_pos hc] at h
      rcases List.mem_cons.mp h with h1 | h1
      · exact Or.inl h1
      · exact Or.inr h1
    · rw [insertPair, if_neg hc] at h
      rcases List.mem_cons.mp h with h1 | h1
      · exact Or.inr (by simp [h1])
      · rcases ih h1 with h2 | h2
        · exact Or.inl h2
        · exact Or.inr (by simp [h2])

lemma mem_sortPairs {z : ℕ × ℚ} : ∀ {l : List (ℕ × ℚ)},
    z ∈ sortPairs l → z ∈ l := by
  intro l
  induction l with
  | nil => intro h; simp [sortPairs] at h
  | cons y ys ih =>
    intro h
    rcases mem_insertPair h with h | h
    · simp [h]
    · exact List.mem_cons_of_mem _ (ih h)

lemma scanPairs_bounds (x lower : ℚ) :
    ∀ (l : List (ℕ × ℚ)) (prev : Option (ℕ × ℚ)),
      lower ≤ x →
      (∀ pv ∈ l, pv.1 ≤ 100) →
      (∀ q, prev = some q → q.1 ≤ 100 ∧ q.2 ≤ x) →
      0 ≤ scanPairs x lower prev l ∧ scanPairs x lower prev l ≤ 1 := by
  intro l
  induction l with
  | nil => intro prev _ _ _; simp [scanPairs]
  | cons pv rest ih =>
    intro prev hlx hmem hprev
    obtain ⟨p, val⟩ := pv
    by_cases hx : x < val
    · simp only [scanPairs, if_pos hx]
      match prev with
      | none =>
        by_cases hvl : val = lower
        · simp [hvl]
        · simp only [if_neg hvl]
          have hp100 : (p : ℚ) ≤ 100 := by
            exact_mod_cast hmem (p, val) (by simp)
          have hlv : lower < val := lt_of_le_of_lt hlx hx
          have h1 : (0 : ℚ) ≤ x - lower := by linarith
          have h2 : x - lower ≤ val - lower := by linarith
          have h3 : (0 : ℚ) < val - lower := by linarith
          have hp0 : (0 : ℚ) ≤ (p : ℚ) := by positivity
          constructor
          · exact div_nonneg (mul_nonneg (by positivity) h1) (le_of_lt h3)
          · rw [div_le_one h3]
            have hp1 : (p : ℚ) / 100 ≤ 1 := by linarith
            have hp0' : (0 : ℚ) ≤ (p : ℚ) / 100 := by positivity
            nlinarith
      | some q =>
        obtain ⟨hq100, hqx⟩ := hprev q rfl
        have hp100 : (p : ℚ) ≤ 100 := by
          exact_mod_cast hmem (p, val) (by simp)
        have hq100' : (q.1 : ℚ) ≤ 100 := by exact_mod_cast hq100
        have hp0 : (0 : ℚ) ≤ (p : ℚ) := by positivity
        have hq0 : (0 : ℚ) ≤ (q.1 : ℚ) := by positivity
        by_cases hvq : val = q.2
        · simp only [if_pos hvq]
          rw [show (q.1 : ℚ) + 0 * ((p : ℚ) - (q.1 : ℚ)) = (q.1 : ℚ) by ring]
          constructor
          · positivity
          · rw [div_le_one (by norm_num)]
            linarith
        · simp only [if_neg hvq]
          have hqv : q.2 < val := lt_of_le_of_lt hqx hx
          have ht0 : (0 : ℚ) ≤ (x - q.2) / (val - q.2) := by
            apply div_nonneg <;> linarith
          have ht1 : (x - q.2) / (val - q.2) ≤ 1 := by
            rw [div_le_one (by linarith)]; linarith
          constructor
          · rw [le_div_iff (by norm_num : (0:ℚ) < 100)]
            nlinarith
          · rw [div_le_one (by norm_num : (0:ℚ) < 100)]
            nlinarith
    · simp only [scanPairs, if_neg hx]
      apply ih (some (p, val)) hlx
      · intro z hz; exact hmem z (List.mem_cons_of_mem _ hz)
      · intro q hq
        injection hq with hq2
        subst hq2
        exact ⟨hmem (p, val) (by simp), le_of_not_lt hx⟩

lemma length_maxScan (p : ℚ) : ∀ (l : List ℚ), (maxScan p l).length = l.length := by
  intro l
  induction l generalizing p with
  | nil => rfl
  | cons x xs ih => simp [maxScan, ih]

lemma chain_maxScan (p : ℚ) : ∀ (l : List ℚ), List.Chain (· ≤ ·) p (maxScan p l) := by
  intro l
  induction l generalizing p with
  | nil => exact List.Chain.nil
  | cons x xs ih => exact List.Chain.cons (le_max_left _ _) (ih _)

lemma maxScan_le {c : ℚ} : ∀ {l : List ℚ} {p : ℚ}, p ≤ c → (∀ x ∈ l, x ≤ c) →
    ∀ y ∈ maxScan p l, y ≤ c := by
  intro l
  induction l with
  | nil => intro p _ _ y hy; simp [maxScan] at hy
  | cons x xs ih =>
    intro p hp hl y hy
    have hy' : y = max p x ∨ y ∈ maxScan (max p x) xs := List.mem_cons.mp hy
    rcases hy' with hy1 | hy1
    · subst hy1; exact max_le hp (hl x (by simp))
    · exact ih (max_le hp (hl x (by simp)))
        (fun z hz => hl z (List.mem_cons_of_mem _ hz)) y hy1

lemma getLast?_maxScan_concat (a : ℚ) : ∀ (l : List ℚ) (p : ℚ),
    ∃ q, (maxScan p (l ++ [a])).getLast? = some q ∧ a ≤ q ∧ q ∈ maxScan p (l ++ [a]) := by
  intro l
  induction l with
  | nil =>
    intro p
    exact ⟨max p a, rfl, le_max_right _ _, by simp [maxScan]⟩
  | cons x xs ih =>
    intro p
    obtain ⟨q, hq, haq, hqm⟩ := ih (max p x)
    refine ⟨q, ?_, haq, ?_⟩
    · have hrw : maxScan p ((x :: xs) ++ [a]) =
          max p x :: maxScan (max p x) (xs ++ [a]) := rfl
      rw [hrw]
      cases hxs : maxScan (max p x) (xs ++ [a]) with
      | nil =>
        exfalso
        have hlen := length_maxScan (max p x) (xs ++ [a])
        rw [hxs] at hlen
        simp at hlen
      | cons z zs =>
        rw [List.getLast?_cons_cons, ← hxs]
        exact hq
    · exact List.mem_cons_of_mem _ hqm

lemma set_last_concat {α : Type} (l : List α) (b c : α) :
    (l ++ [b]).set l.length c = l ++ [c] := by
  induction l with
  | nil => rfl
  | cons x xs ih =>
    show x :: (xs ++ [b]).set xs.length c = x :: (xs ++ [c])
    rw [ih]

/-- Well-formedness of the reconstructed CDF: 201 entries, first entry 0,
last entry 1, non-decreasing.  Needs only that the percentile keys are
percentages (≤ 100) and that the bounds are ordered. -/
lemma cdf_wellformed (ps : List (ℕ × ℚ)) (lower upper : ℚ)
    (hlt : lower ≤ upper) (hkeys : ∀ pv ∈ ps, pv.1 ≤ 100) :
    (cdf_from_percentiles ps lower upper).length = 201 ∧
    (cdf_from_percentiles ps lower upper).head? = some 0 ∧
    (cdf_from_percentiles ps lower upper).getLast? = some 1 ∧
    List.Chain' (· ≤ ·) (cdf_from_percentiles ps lower upper) := by
  have hrawlen : (cdfRaw ps lower upper).length = 201 := by
    simp [cdfRaw]
  have hrawmem : ∀ y ∈ cdfRaw ps lower upper, 0 ≤ y ∧ y ≤ 1 := by
    intro y hy
    simp only [cdfRaw, List.mem_map] at hy
    obtain ⟨i, _, rfl⟩ := hy
    apply scanPairs_bounds
    · have h0 : (0 : ℚ) ≤ (upper - lower) * (i : ℚ) / 200 :=
        div_nonneg (mul_nonneg (by linarith) (by positivity)) (by norm_num)
      simp only [gridPoint]; linarith
    · intro pv hpv; exact hkeys pv (mem_sortPairs hpv)
    · intro q hq; simp at hq
  -- decompose the raw list as a head and a 200-element tail
  obtain ⟨r0, rt, hraw⟩ : ∃ r0 rt, cdfRaw ps lower upper = r0 :: rt := by
    cases h : cdfRaw ps lower upper with
    | nil => rw [h] at hrawlen; simp at hrawlen
    | cons a as => exact ⟨a, as, rfl⟩
  have hrtlen : rt.length = 200 := by
    have := hrawlen; rw [hraw] at this; simpa using this
  have hrtne : rt ≠ [] := by
    intro h; rw [h] at hrtlen; simp at hrtlen
  -- the pinned list is 0 :: (rt.dropLast ++ [1])
  have hpin : (((cdfRaw ps lower upper).set 0 0).set 200 1 : List ℚ) =
      0 :: (rt.dropLast ++ [1]) := by
    rw [hraw]
    show ((0 : ℚ) :: rt).set 200 1 = 0 :: (rt.dropLast ++ [1])
    have h199 : rt.dropLast.length = 199 := by
      rw [List.length_dropLast, hrtlen]
    calc ((0 : ℚ) :: rt).set 200 1 = 0 :: rt.set 199 1 := rfl
      _ = 0 :: (rt.dropLast ++ [rt.getLast hrtne]).set 199 1 := by
          rw [List.dropLast_append_getLast hrtne]
      _ = 0 :: (rt.dropLast ++ [rt.getLast hrtne]).set rt.dropLast.length 1 := by
          rw [h199]
      _ = 0 :: (rt.dropLast ++ [1]) := by rw [set_last_concat]
  have hmid_le : ∀ y ∈ rt.dropLast ++ [(1 : ℚ)], y ≤ 1 := by
    intro y hy
    rcases List.mem_append.mp hy with hy1 | hy1
    · have hy2 : y ∈ cdfRaw ps lower upper := by
        rw [hraw]; exact List.mem_cons_of_mem _ (List.mem_of_mem_dropLast hy1)
      exact (hrawmem y hy2).2
    · have : y = 1 := by simpa using hy1
      simp [this]
  have hcdf : cdf_from_percentiles ps lower upper =
      0 :: maxScan 0 (rt.dropLast ++ [1]) := by
    rw [cdf_from_percentiles, hpin]
  have h199 : rt.dropLast.length = 199 := by
    rw [List.length_dropLast, hrtlen]
  refine ⟨?_, ?_, ?_, ?_⟩
  · rw [hcdf]
    simp [length_maxScan, h199]
  · rw [hcdf]; rfl
  · rw [hcdf]
    obtain ⟨q, hq, h1q, hqm⟩ := getLast?_maxScan_concat 1 rt.dropLast 0
    have hq1 : q ≤ 1 := maxScan_le (by norm_num) hmid_le q hqm
    have : q = 1 := le_antisymm hq1 h1q
    subst this
    cases hms : maxScan 0 (rt.dropLast ++ [1]) with
    | nil =>
      exfalso
      have := length_maxScan 0 (rt.dropLast ++ [1])
      rw [hms] at this
      simp at this
    | cons z zs =>
      rw [List.getLast?_cons_cons, ← hms]
      exact hq
  · rw [hcdf]
    exact chain_maxScan 0 _

lemma foldl_const {α β : Type} (l : List α) (acc : β) :
    l.foldl (fun a _ => a) acc = acc := by
  induction l generalizing acc with
  | nil => rfl
  | cons x xs ih => exact ih acc

lemma getLast?_map_range (f : ℕ → ℚ) (n : ℕ) :
    ((List.range (n + 1)).map f).getLast? = some (f n) := by
  rw [List.range_succ, List.map_append]
  simp

lemma getD_200_of_getLast? {c : List ℚ} (hlen : c.length = 201)
    (hlast : c.getLast? = some 1) : c.getD 200 0 = 1 := by
  rw [List.getD_eq_getElem?_getD]
  rw [List.getLast?_eq_getElem?, hlen] at hlast
  norm_num at hlast
  rw [hlast]
  rfl

lemma specAggregateCdfs_single (ps : List (ℕ × ℚ)) (lower upper : ℚ) :
    specAggregateCdfs [(ps, 1)] lower upper =
      (List.range 201).map (fun i => (cdf_from_percentiles ps lower upper).getD i 0) := by
  simp [specAggregateCdfs]

/-! ## Claim theorems -/

/-- Claim C5: for every non-empty percentile dictionary (a percentile
dictionary's keys are percentile levels, hence at most 100) and bounds
`lower < upper`, the reconstructed CDF is a list of 201 values that is
non-decreasing, with first entry exactly 0.0 and last entry exactly 1.0. -/
theorem C5_cdf_from_percentiles_wellformed (ps : List (ℕ × ℚ)) (lower upper : ℚ)
    (hne : ps ≠ []) (hlt : lower < upper) (hkeys : ∀ pv ∈ ps, pv.1 ≤ 100) :
    (cdf_from_percentiles ps lower upper).length = 201 ∧
    (cdf_from_percentiles ps lower upper).head? = some 0 ∧
    (cdf_from_percentiles ps lower upper).getLast? = some 1 ∧
    List.Chain' (· ≤ ·) (cdf_from_percentiles ps lower upper) :=
  cdf_wellformed ps lower upper (le_of_lt hlt) hkeys

/-- Witness for C5 at the concrete percentile set p50 = 0.5 on [0, 1]. -/
theorem C5_witness :
    ([((50 : ℕ), (1 : ℚ)/2)] ≠ [] ∧ (0 : ℚ) < 1 ∧
      (∀ pv ∈ [((50 : ℕ), (1 : ℚ)/2)], pv.1 ≤ 100)) ∧
    ((cdf_from_percentiles [(50, 1/2)] 0 1).length = 201 ∧
     (cdf_from_percentiles [(50, 1/2)] 0 1).head? = some 0 ∧
     (cdf_from_percentiles [(50, 1/2)] 0 1).getLast? = some 1 ∧
     List.Chain' (· ≤ ·) (cdf_from_percentiles [(50, 1/2)] 0 1)) :=
  ⟨⟨by simp, by norm_num, by decide⟩,
   C5_cdf_from_percentiles_wellformed [(50, 1/2)] 0 1 (by simp) (by norm_num) (by decide)⟩

/-- Claim C3: the source `_aggregate_cdfs` is a no-op stub — it returns the
all-zero 201-vector for every committee, whereas the claimed grid-point-wise
weighted mean of per-agent CDFs (spec-side definition) ends at 1.0.  Shown at
the failing input of a single unit-weight agent with percentile p50 = 0.5 on
bounds [0, 1]. -/
theorem C3_aggregate_cdfs_is_stub :
    (∀ (forecasts : List AgentForecastW) (lower upper : ℚ),
        aggregate_cdfs forecasts lower upper = List.replicate 201 0) ∧
    (aggregate_cdfs [⟨"base_rate_analyst", 1⟩] 0 1).getLast? = some 0 ∧
    (specAggregateCdfs [([(50, 1/2)], 1)] 0 1).getLast? = some 1 ∧
    aggregate_cdfs [⟨"base_rate_analyst", 1⟩] 0 1 ≠
      specAggregateCdfs [([(50, 1/2)], 1)] 0 1 := by
  have hstub : ∀ (forecasts : List AgentForecastW) (lower upper : ℚ),
      aggregate_cdfs forecasts lower upper = List.replicate 201 0 := by
    intro forecasts lower upper
    simp [aggregate_cdfs, foldl_const]
  have hzero : (List.replicate 201 (0 : ℚ)).getLast? = some 0 := by
    rw [List.replicate_succ', List.getLast?_concat]
  have hcdf := cdf_wellformed [(50, 1/2)] 0 1 (by norm_num) (by decide)
  have hspec : (specAggregateCdfs [([(50, 1/2)], 1)] 0 1).getLast? = some 1 := by
    rw [specAggregateCdfs_single]
    have := getLast?_map_range
      (fun i => (cdf_from_percentiles [(50, 1/2)] 0 1).getD i 0) 200
    rw [this, getD_200_of_getLast? hcdf.1 hcdf.2.2.1]
  refine ⟨hstub, ?_, hspec, ?_⟩
  · rw [hstub]; exact hzero
  · intro h
    rw [hstub] at h
    rw [← h] at hspec
    rw [hzero] at hspec
    exact absurd hspec (by simp)

/-- Claim C4: the source `_aggregate_multiple_choice` returns a uniform
distribution ignoring the forecasts, whereas the claimed weighted mean of
the renormalized per-agent distributions (spec-side definition) reproduces
the agent's distribution for a single unit-weight agent; moreover a zero-sum
per-agent distribution is left raw by the source, not replaced by a uniform
one.  Failing input: one agent with renormalized distribution
A=0.8, B=0.2 over options [A, B]. -/
theorem C4_aggregate_mc_is_stub :
    aggregate_multiple_choice [⟨"base_rate_analyst", 1⟩] ["A", "B"] =
      [("A", 1/2), ("B", 1/2)] ∧
    perAgentOptionProbs [("A", 4/5), ("B", 1/5)] = [("A", 4/5), ("B", 1/5)] ∧
    specAggregateMC [([("A", 4/5), ("B", 1/5)], 1)] ["A", "B"] =
      [("A", 4/5), ("B", 1/5)] ∧
    aggregate_multiple_choice [⟨"base_rate_analyst", 1⟩] ["A", "B"] ≠
      specAggregateMC [([("A", 4/5), ("B", 1/5)], 1)] ["A", "B"] ∧
    perAgentOptionProbs [("A", 0), ("B", 0)] = [("A", 0), ("B", 0)] := by
  have h1 : aggregate_multiple_choice [⟨"base_rate_analyst", 1⟩] ["A", "B"] =
      [("A", 1/2), ("B", 1/2)] := by
    norm_num [aggregate_multiple_choice]
  have h2 : perAgentOptionProbs [("A", (4:ℚ)/5), ("B", 1/5)] =
      [("A", 4/5), ("B", 1/5)] := by
    norm_num [perAgentOptionProbs]
  have h3 : specAggregateMC [([("A", (4:ℚ)/5), ("B", 1/5)], 1)] ["A", "B"] =
      [("A", 4/5), ("B", 1/5)] := by
    have hne : ("A" : String) = "B" ↔ False := iff_false_intro (by decide)
    norm_num [specAggregateMC, lookupQ, hne]
  refine ⟨h1, h2, h3, ?_, ?_⟩
  · rw [h1, h3]
    intro h
    injection h with hhd _
    injection hhd with _ hv
    norm_num at hv
  · simp [perAgentOptionProbs]

lemma succ_mod_eq (i n : ℕ) (h : i < n) :
    (i + 1) % n = if i + 1 = n then 0 else i + 1 := by
  rcases eq_or_lt_of_le (show i + 1 ≤ n by omega) with he | hl
  · simp [he, Nat.mod_self]
  · rw [if_neg (Nat.ne_of_lt hl), Nat.mod_eq_of_lt hl]

/-- Claim C1: the source pairs agent `i`'s revision with `critiques[i]` — the
critique agent `i` wrote about agent `(i+1) mod n` — not with the critique it
received.  Evaluated on a two-agent committee: agent 0's revision carries the
critique authored by agent 0 whose subject is agent 1's forecast, while the
critique agent 0 received (`critiques[1]`) is about agent 0's own forecast. -/
theorem C1_revision_uses_written_critique :
    run_peer_reviews [⟨"a0", 1⟩, ⟨"a1", 1⟩] [⟨"a0", 0⟩, ⟨"a1", 1⟩] =
      [⟨"a0", ⟨"a1", 1⟩⟩, ⟨"a1", ⟨"a0", 0⟩⟩] ∧
    ((run_revisions [⟨"a0", 1⟩, ⟨"a1", 1⟩] [⟨"a0", 0⟩, ⟨"a1", 1⟩]
        (run_peer_reviews [⟨"a0", 1⟩, ⟨"a1", 1⟩] [⟨"a0", 0⟩, ⟨"a1", 1⟩])).getD 0
        defaultRevised).peer_critique = ⟨"a0", ⟨"a1", 1⟩⟩ ∧
    ((run_peer_reviews [⟨"a0", 1⟩, ⟨"a1", 1⟩] [⟨"a0", 0⟩, ⟨"a1", 1⟩]).getD 1
        defaultCritique).subject = ⟨"a0", 0⟩ ∧
    (⟨"a0", ⟨"a1", 1⟩⟩ : CritiqueM) ≠
      (run_peer_reviews [⟨"a0", 1⟩, ⟨"a1", 1⟩] [⟨"a0", 0⟩, ⟨"a1", 1⟩]).getD 1
        defaultCritique := by
  refine ⟨?_, ?_, ?_, ?_⟩ <;> decide

/-- Counterexample to claim C2 as stated for every `n ≥ 1`: with a committee
of one agent, `run_peer_reviews` has the agent critique the forecast at
position `(0+1) mod 1 = 0` — its own forecast. -/
theorem C2_counterexample_self_critique :
    ((run_peer_reviews [⟨"a0", 1⟩] [⟨"a0", 0⟩]).getD 0 defaultCritique).subject =
      ⟨"a0", 0⟩ ∧
    (run_peer_reviews [⟨"a0", 1⟩] [⟨"a0", 0⟩]).length = 1 := by
  refine ⟨?_, ?_⟩ <;> decide

/-- Claim C2 (amended): for every committee, agent `i` critiques the forecast
at position `(i+1) mod n`; that position map is a bijection of the committee
positions, so each agent is critic exactly once and critiqued exactly once;
and no agent critiques its own forecast provided `n ≥ 2` (for `n = 1` the
single agent critiques itself). -/
theorem C2_peer_review_ring (agents : List AgentM) (forecasts : List AgentForecastM)
    (i : ℕ) (hi : i < agents.length) :
    (run_peer_reviews agents forecasts).length = agents.length ∧
    (run_peer_reviews agents forecasts).getD i defaultCritique =
      peer_review (agents.getD i defaultAgent)
        (forecasts.getD ((i + 1) % agents.length) defaultForecast) ∧
    (∀ i2 j2, i2 < agents.length → j2 < agents.length →
      (i2 + 1) % agents.length = (j2 + 1) % agents.length → i2 = j2) ∧
    (∀ j2, j2 < agents.length →
      ∃ i2, i2 < agents.length ∧ (i2 + 1) % agents.length = j2) ∧
    (2 ≤ agents.length → (i + 1) % agents.length ≠ i) := by
  refine ⟨?_, ?_, ?_, ?_, ?_⟩
  · rw [run_peer_reviews]
    simp
  · rw [run_peer_reviews]
    rw [List.getD_eq_getElem?_getD, List.getElem?_map, List.getElem?_range hi]
    rfl
  · intro i2 j2 h2 h3 heq
    rw [succ_mod_eq i2 _ h2, succ_mod_eq j2 _ h3] at heq
    split_ifs at heq <;> omega
  · intro j2 hj
    by_cases hj0 : j2 = 0
    · refine ⟨agents.length - 1, by omega, ?_⟩
      have hn : agents.length - 1 + 1 = agents.length := by omega
      rw [hn, Nat.mod_self, hj0]
    · refine ⟨j2 - 1, by omega, ?_⟩
      have hn : j2 - 1 + 1 = j2 := by omega
      rw [hn, Nat.mod_eq_of_lt hj]
  · intro h2n heq
    rw [succ_mod_eq i _ hi] at heq
    split_ifs at heq <;> omega

/-- Witness for C2 (amended) on a two-agent committee at position 0. -/
theorem C2_peer_review_ring_witness :
    (0 < ([⟨"a0", 1⟩, ⟨"a1", 1⟩] : List AgentM).length) ∧
    ((run_peer_reviews [⟨"a0", 1⟩, ⟨"a1", 1⟩] [⟨"a0", 0⟩, ⟨"a1", 1⟩]).length =
        ([⟨"a0", 1⟩, ⟨"a1", 1⟩] : List AgentM).length ∧
      (run_peer_reviews [⟨"a0", 1⟩, ⟨"a1", 1⟩] [⟨"a0", 0⟩, ⟨"a1", 1⟩]).getD 0
          defaultCritique =
        peer_review (([⟨"a0", 1⟩, ⟨"a1", 1⟩] : List AgentM).getD 0 defaultAgent)
          (([⟨"a0", 0⟩, ⟨"a1", 1⟩] : List AgentForecastM).getD
            ((0 + 1) % ([⟨"a0", 1⟩, ⟨"a1", 1⟩] : List AgentM).length)
            defaultForecast) ∧
      (∀ i2 j2, i2 < ([⟨"a0", 1⟩, ⟨"a1", 1⟩] : List AgentM).length →
        j2 < ([⟨"a0", 1⟩, ⟨"a1", 1⟩] : List AgentM).length →
        (i2 + 1) % ([⟨"a0", 1⟩, ⟨"a1", 1⟩] : List AgentM).length =
          (j2 + 1) % ([⟨"a0", 1⟩, ⟨"a1", 1⟩] : List AgentM).length → i2 = j2) ∧
      (∀ j2, j2 < ([⟨"a0", 1⟩, ⟨"a1", 1⟩] : List AgentM).length →
        ∃ i2, i2 < ([⟨"a0", 1⟩, ⟨"a1", 1⟩] : List AgentM).length ∧
          (i2 + 1) % ([⟨"a0", 1⟩, ⟨"a1", 1⟩] : List AgentM).length = j2) ∧
      (2 ≤ ([⟨"a0", 1⟩, ⟨"a1", 1⟩] : List AgentM).length →
        (0 + 1) % ([⟨"a0", 1⟩, ⟨"a1", 1⟩] : List AgentM).length ≠ 0)) :=
  ⟨by simp, C2_peer_review_ring [⟨"a0", 1⟩, ⟨"a1", 1⟩] [⟨"a0", 0⟩, ⟨"a1", 1⟩] 0 (by simp)⟩

lemma length_insertByTs (x : CacheEntry) : ∀ l : List CacheEntry,
    (insertByTs x l).length = l.length + 1 := by
  intro l
  induction l with
  | nil => rfl
  | cons y ys ih =>
    rw [insertByTs]
    split
    · rfl
    · simp [ih]

lemma length_sortByTs : ∀ l : List CacheEntry, (sortByTs l).length = l.length := by
  intro l
  induction l with
  | nil => rfl
  | cons y ys ih => rw [sortByTs, length_insertByTs, ih, List.length_cons]

lemma cacheSet_length_le (m : ℕ) (hm : 4 ≤ m) (st : List CacheEntry)
    (hst : st.length ≤ m) (key : String) (now : ℕ) (data : String) :
    (cacheSet m st key now data).length ≤ m := by
  simp only [cacheSet]
  by_cases hc : m ≤ st.length
  · rw [if_pos hc]
    have hstm : st.length = m := le_antisymm hst hc
    have h1 : ((sortByTs st).drop (st.length / 4)).length = m - m / 4 := by
      rw [List.length_drop, length_sortByTs, hstm]
    have h2 : (((sortByTs st).drop (st.length / 4)).filter
        (fun e => e.key ≠ key)).length ≤ m - m / 4 :=
      h1 ▸ List.length_filter_le _ _
    have h3 : 1 ≤ m / 4 := by omega
    rw [List.length_append]
    simp only [List.length_singleton]
    omega
  · rw [if_neg hc]
    push_neg at hc
    have h2 : (st.filter (fun e => e.key ≠ key)).length ≤ st.length :=
      List.length_filter_le _ _
    rw [List.length_append]
    simp only [List.length_singleton]
    omega

/-- Counterexample to claim C9 as stated for every `max_size ≥ 1`: with
`max_size = 1` the eviction count `len // 4` is `0`, so a second insert
leaves the store with 2 entries. -/
theorem C9_counterexample_max_size_one :
    cacheSetAll 1 [] [("a", 0, "da"), ("b", 1, "db")] =
      [⟨"a", 0, "da"⟩, ⟨"b", 1, "db"⟩] ∧
    ¬((cacheSetAll 1 [] [("a", 0, "da"), ("b", 1, "db")]).length ≤ 1) := by
  refine ⟨?_, ?_⟩ <;> decide

/-- Claim C9 (amended): for every `max_size ≥ 4` and every sequence of `set`
operations starting from the empty store, the store never exceeds `max_size`
entries after a `set` completes (for `max_size ≤ 3` the eviction count
`⌊size/4⌋` is still 0 when the threshold is hit, and the store can grow
past `max_size`). -/
theorem C9_cache_never_exceeds_max_size (m : ℕ) (hm : 4 ≤ m)
    (ops : List (String × ℕ × String)) :
    (cacheSetAll m [] ops).length ≤ m := by
  have hgen : ∀ (ops2 : List (String × ℕ × String)) (st : List CacheEntry),
      st.length ≤ m → (cacheSetAll m st ops2).length ≤ m := by
    intro ops2
    induction ops2 with
    | nil => intro st h; exact h
    | cons op rest ih =>
      intro st h
      exact ih _ (cacheSet_length_le m hm st h op.1 op.2.1 op.2.2)
  exact hgen ops [] (by simp)

/-- Witness for C9 (amended): five inserts into a store of capacity 4. -/
theorem C9_cache_never_exceeds_max_size_witness :
    4 ≤ 4 ∧
    (cacheSetAll 4 []
      [("a", 0, "x"), ("b", 1, "x"), ("c", 2, "x"), ("d", 3, "x"),
       ("e", 4, "x")]).length ≤ 4 :=
  ⟨by norm_num, C9_cache_never_exceeds_max_size 4 (by norm_num) _⟩

lemma normalize_probability_bounds (v : ℚ) :
    1/100 ≤ normalize_probability v ∧ normalize_probability v ≤ 99/100 := by
  unfold normalize_probability
  constructor
  · exact le_trans (by norm_num) (le_max_left _ _)
  · exact max_le (by norm_num) (le_trans (min_le_left _ _) (by norm_num))

lemma normalize_probability_ne_zero (v : ℚ) : normalize_probability v ≠ 0 := by
  intro h
  have := (normalize_probability_bounds v).1
  rw [h] at this
  norm_num at this

/-- Every result of `parse_probability` is an error, `none`, or a clamped
value. -/
lemma parse_probability_shape (text : String) :
    (∃ v, parse_probability text = .ok (some (normalize_probability v))) ∨
    parse_probability text = .ok none ∨
    parse_probability text = .error () := by
  cases h1 : searchAt tryProbabilityAt text.data with
  | some g =>
    cases h2 : pyFloat g with
    | some v => exact Or.inl ⟨v, by simp [parse_probability, h1, h2]⟩
    | none => exact Or.inr (Or.inr (by simp [parse_probability, h1, h2]))
  | none =>
    cases h2 : searchAt tryPercentAt text.data with
    | some g =>
      cases h3 : pyFloat g with
      | some v => exact Or.inl ⟨v / 100, by simp [parse_probability, h1, h2, h3]⟩
      | none => exact Or.inr (Or.inr (by simp [parse_probability, h1, h2, h3]))
    | none =>
      cases h3 : searchAt tryInOddsAt text.data with
      | some g12 =>
        cases h4 : pyFloat g12.1 with
        | some num =>
          cases h5 : pyFloat g12.2 with
          | some den =>
            by_cases hden : 0 < den
            · exact Or.inl ⟨num / den,
                by simp [parse_probability, h1, h2, h3, h4, h5, hden]⟩
            · cases h6 : searchAt tryChanceAt text.data with
              | some g =>
                cases h7 : pyFloat g with
                | some v =>
                  exact Or.inl ⟨if 1 < v then v / 100 else v,
                    by simp [parse_probability, h1, h2, h3, h4, h5, hden, h6, h7]⟩
                | none =>
                  exact Or.inr (Or.inr
                    (by simp [parse_probability, h1, h2, h3, h4, h5, hden, h6, h7]))
              | none =>
                exact Or.inr (Or.inl
                  (by simp [parse_probability, h1, h2, h3, h4, h5, hden, h6]))
          | none =>
            exact Or.inr (Or.inr (by simp [parse_probability, h1, h2, h3, h4, h5]))
        | none =>
          cases h5 : pyFloat g12.2 with
          | some den =>
            exact Or.inr (Or.inr (by simp [parse_probability, h1, h2, h3, h4, h5]))
          | none =>
            exact Or.inr (Or.inr (by simp [parse_probability, h1, h2, h3, h4, h5]))
      | none =>
        cases h4 : searchAt tryChanceAt text.data with
        | some g =>
          cases h5 : pyFloat g with
          | some v =>
            exact Or.inl ⟨if 1 < v then v / 100 else v,
              by simp [parse_probability, h1, h2, h3, h4, h5]⟩
          | none =>
            exact Or.inr (Or.inr (by simp [parse_probability, h1, h2, h3, h4, h5]))
        | none => exact Or.inr (Or.inl (by simp [parse_probability, h1, h2, h3, h4]))

/-- Claim C7 (amended): for every response text, the extracted probability is
the value of the first matching pattern among `PROBABILITY:`, percentage,
odds phrase and chance/likelihood phrase, in that order, clamped into
[0.01, 0.99]; when no pattern matches, the forecast operation returns the
neutral 0.5 while the revise operation returns the agent's initial
probability unchanged; a matched `PROBABILITY:` group that is not a valid
float raises instead of returning. -/
theorem C7_parse_priority_and_fallback (text : String) (init : ℚ) :
    (∀ p, parse_probability text = .ok (some p) →
        1/100 ≤ p ∧ p ≤ 99/100 ∧
        forecastProbability text = .ok p ∧
        reviseProbability text init = .ok p) ∧
    (parse_probability text = .ok none →
        forecastProbability text = .ok (1/2) ∧
        reviseProbability text init = .ok init) ∧
    (∀ g v, searchAt tryProbabilityAt text.data = some g → pyFloat g = some v →
        parse_probability text = .ok (some (normalize_probability v))) ∧
    (searchAt tryProbabilityAt text.data = none →
      ∀ g v, searchAt tryPercentAt text.data = some g → pyFloat g = some v →
        parse_probability text = .ok (some (normalize_probability (v / 100)))) ∧
    (searchAt tryProbabilityAt text.data = none →
      searchAt tryPercentAt text.data = none →
      ∀ g1 g2 num den, searchAt tryInOddsAt text.data = some (g1, g2) →
        pyFloat g1 = some num → pyFloat g2 = some den → 0 < den →
        parse_probability text = .ok (some (normalize_probability (num / den)))) ∧
    (searchAt tryProbabilityAt text.data = none →
      searchAt tryPercentAt text.data = none →
      searchAt tryInOddsAt text.data = none →
      ∀ g v, searchAt tryChanceAt text.data = some g → pyFloat g = some v →
        parse_probability text = .ok
          (some (normalize_probability (if 1 < v then v / 100 else v)))) ∧
    (searchAt tryProbabilityAt text.data = none →
      searchAt tryPercentAt text.data = none →
      searchAt tryInOddsAt text.data = none →
      searchAt tryChanceAt text.data = none →
      parse_probability text = .ok none) := by
  refine ⟨?_, ?_, ?_, ?_, ?_, ?_, ?_⟩
  · intro p hp
    rcases parse_probability_shape text with ⟨v, hv⟩ | hnone | herr
    · rw [hv] at hp
      have hpv : normalize_probability v = p := by
        simpa using hp
      subst hpv
      refine ⟨(normalize_probability_bounds v).1, (normalize_probability_bounds v).2,
        ?_, ?_⟩
      · simp [forecastProbability, hv, Except.map, pyOr, normalize_probability_ne_zero v]
      · simp [reviseProbability, hv, Except.map, pyOr, normalize_probability_ne_zero v]
    · rw [hnone] at hp; simp at hp
    · rw [herr] at hp; simp at hp
  · intro hnone
    constructor
    · simp [forecastProbability, hnone, Except.map, pyOr]
      norm_num
    · simp [reviseProbability, hnone, Except.map, pyOr]
  · intro g v h1 h2
    simp [parse_probability, h1, h2]
  · intro h0 g v h1 h2
    simp [parse_probability, h0, h1, h2]
  · intro h0 h0b g1 g2 num den h1 h2 h3 h4
    simp [parse_probability, h0, h0b, h1, h2, h3, h4]
  · intro h0 h0b h0c g v h1 h2
    simp [parse_probability, h0, h0b, h0c, h1, h2]
  · intro h0 h0b h0c h0d
    simp [parse_probability, h0, h0b, h0c, h0d]

/-- Counterexample to claim C7 as stated: on a response with no recognizable
pattern the revise operation returns the initial probability (0.7 here), not
the neutral 0.5; and a matched `PROBABILITY:` group that is not a valid float
(`..`) raises a `ValueError` instead of returning a probability. -/
theorem C7_counterexample_revise_fallback :
    reviseProbability "I refuse to answer." (7/10) = .ok (7/10) ∧
    ((7 : ℚ)/10) ≠ 1/2 ∧
    parse_probability "PROBABILITY: .." = .error () := by
  have h : parse_probability "I refuse to answer." = .ok none := rfl
  refine ⟨?_, by norm_num, rfl⟩
  simp [reviseProbability, h, Except.map, pyOr]

/-- Witness for C7 (amended) on the response `PROBABILITY: 0.75`. -/
theorem C7_parse_priority_witness :
    parse_probability "PROBABILITY: 0.75" = .ok (some (3/4)) ∧
    (1/100 ≤ (3 : ℚ)/4 ∧ (3 : ℚ)/4 ≤ 99/100 ∧
     forecastProbability "PROBABILITY: 0.75" = .ok (3/4) ∧
     reviseProbability "PROBABILITY: 0.75" (1/4) = .ok (3/4)) := by
  have h1 : searchAt tryProbabilityAt "PROBABILITY: 0.75".data =
      some ['0', '.', '7', '5'] := rfl
  have hraw : pyFloat ['0', '.', '7', '5'] =
      some ((natOfDigits ['0'] : ℚ) + (natOfDigits ['7', '5'] : ℚ) / 10 ^ 2) := rfl
  have hn1 : natOfDigits ['0'] = 0 := rfl
  have hn2 : natOfDigits ['7', '5'] = 75 := rfl
  have h2 : pyFloat ['0', '.', '7', '5'] = some (3/4) := by
    rw [hraw, hn1, hn2]
    norm_num
  have hnorm : normalize_probability (3/4) = 3/4 := by
    rw [normalize_probability]
    norm_num [max_def, min_def]
  have hparse : parse_probability "PROBABILITY: 0.75" = .ok (some (3/4)) := by
    simp [parse_probability, h1, h2, hnorm]
  exact ⟨hparse,
    (C7_parse_priority_and_fallback "PROBABILITY: 0.75" (1/4)).1 (3/4) hparse⟩

/-- Claim C10: the numeric agent's final probability is the midpoint of the
bounds both when the response carries no `MEDIAN:` line and when it says
`MEDIAN: 0` — the parsed median 0.0 is falsy in `median or midpoint`, so a
zero median is indistinguishable from a missing one. -/
theorem C10_zero_median_is_midpoint (lower upper : ℚ) :
    parse_median "MEDIAN: 0" = .ok (some 0) ∧
    numericFinalProbability "MEDIAN: 0" lower upper = .ok ((lower + upper) / 2) ∧
    (∀ text : String, parse_median text = .ok none →
      numericFinalProbability text lower upper = .ok ((lower + upper) / 2)) := by
  have hg : searchAt tryMedianAt "MEDIAN: 0".data = some ['0'] := rfl
  have hv : pyFloat ['0'] = some ((natOfDigits ['0'] : ℚ)) := rfl
  have hv2 : pyFloat ['0'] = some 0 := by
    rw [hv, show natOfDigits ['0'] = 0 from rfl]
    norm_num
  have hm : parse_median "MEDIAN: 0" = .ok (some 0) := by
    simp [parse_median, hg, hv2]
  refine ⟨hm, ?_, ?_⟩
  · simp [numericFinalProbability, hm, Except.map, pyOr]
  · intro text h
    simp [numericFinalProbability, h, Except.map, pyOr]

/-- Witness for C10 at bounds [0, 10] and a response with no median. -/
theorem C10_zero_median_witness :
    parse_median "no data" = .ok none ∧
    numericFinalProbability "no data" 0 10 = .ok ((0 + 10) / 2) :=
  ⟨rfl, (C10_zero_median_is_midpoint 0 10).2.2 "no data" rfl⟩

lemma logit_eval {p : ℝ} (h1 : 0.0001 ≤ p) (h2 : p ≤ 0.9999) :
    logit p = Real.log (p / (1 - p)) := by
  unfold logit
  rw [min_eq_right h2, max_eq_right h1]

lemma logit_point_six : logit 0.6 = Real.log (3/2) := by
  rw [logit_eval (by norm_num) (by norm_num),
    show ((0.6 : ℝ) / (1 - 0.6)) = 3/2 by norm_num]

lemma logit_point_eight : logit 0.8 = Real.log 4 := by
  rw [logit_eval (by norm_num) (by norm_num),
    show ((0.8 : ℝ) / (1 - 0.8)) = 4 by norm_num]

lemma logit_point_nine : logit 0.9 = Real.log 9 := by
  rw [logit_eval (by norm_num) (by norm_num),
    show ((0.9 : ℝ) / (1 - 0.9)) = 9 by norm_num]

lemma inv_logit_exp (x : ℝ) : inv_logit x = Real.exp x / (Real.exp x + 1) := by
  unfold inv_logit
  rw [Real.exp_neg]
  have hx : Real.exp x ≠ 0 := (Real.exp_pos x).ne'
  field_simp

lemma aggregate_logit_space_two (p1 p2 w1 w2 : ℝ) (hsum : w1 + w2 ≠ 0) :
    aggregate_logit_space [p1, p2] [w1, w2] =
      .ok (inv_logit ((logit p1 * w1 + logit p2 * w2) / (w1 + w2))) := by
  unfold aggregate_logit_space weighted_average
  simp only [List.map_cons, List.map_nil, List.zip_cons_cons, List.zip_nil_right,
    List.sum_cons, List.sum_nil, add_zero, List.length_cons, List.length_nil]
  rw [if_neg (by simp), if_neg (by norm_num), if_neg hsum]
  rfl

lemma aggregate_logit_space_zero_weights (ps ws : List ℝ) (hps : ps ≠ [])
    (hlen : ws.length = ps.length) (hw : ∀ w ∈ ws, w = 0) :
    aggregate_logit_space ps ws = .ok (inv_logit 0.5) := by
  have hws : ws ≠ [] := by
    intro h
    subst h
    simp at hlen
    exact hps (List.length_eq_zero.mp hlen.symm)
  have hsum : ws.sum = 0 := List.sum_eq_zero hw
  unfold aggregate_logit_space weighted_average
  rw [if_neg (by simp [hps, hws]), if_neg (by simp [List.length_map, hlen]),
    if_pos hsum]
  rfl

/-- Counterexample to claim C8 as stated: with all-zero weights the code does
not fall back to an unweighted mean — `weighted_average` returns the constant
0.5 as the averaged logit, so binary aggregation returns
`inv_logit(0.5) ≈ 0.622` regardless of the probabilities.  At probabilities
[0.9, 0.9] the claimed uniform-weight fallback value is 0.9. -/
theorem C8_counterexample_zero_weights :
    aggregate_logit_space [0.9, 0.9] [0, 0] = .ok (inv_logit 0.5) ∧
    inv_logit ((logit 0.9 + logit 0.9) / 2) = 0.9 ∧
    inv_logit 0.5 < 0.9 ∧
    aggregate_logit_space [0.9, 0.9] [0, 0] ≠
      .ok (inv_logit ((logit 0.9 + logit 0.9) / 2)) := by
  have h1 : aggregate_logit_space [0.9, 0.9] [0, 0] = .ok (inv_logit 0.5) :=
    aggregate_logit_space_zero_weights _ _ (by simp) (by simp) (by simp)
  have h2 : inv_logit ((logit 0.9 + logit 0.9) / 2) = 0.9 := by
    rw [logit_point_nine, show (Real.log 9 + Real.log 9) / 2 = Real.log 9 by ring,
      inv_logit_exp, Real.exp_log (by norm_num)]
    norm_num
  have h3 : inv_logit 0.5 < 0.9 := by
    rw [inv_logit_exp]
    have he : Real.exp 0.5 < 9 := by
      calc Real.exp 0.5 ≤ Real.exp 1 := Real.exp_le_exp.mpr (by norm_num)
        _ < 2.7182818286 := Real.exp_one_lt_d9
        _ < 9 := by norm_num
    have hp : (0 : ℝ) < Real.exp 0.5 := Real.exp_pos _
    rw [div_lt_iff (by linarith)]
    nlinarith
  refine ⟨h1, h2, h3, ?_⟩
  rw [h1, h2]
  intro h
  have : inv_logit 0.5 = (0.9 : ℝ) := by
    simpa using h
  rw [this] at h3
  exact absurd h3 (lt_irrefl _)

/-- Claim C8 (amended): when the probability list is non-empty, lengths
match, and every weight is zero, `weighted_average` returns the neutral 0.5
as the averaged logit — there is no division by zero and no error — so
binary aggregation returns `inv_logit(0.5)`, not an unweighted mean of the
inputs. -/
theorem C8_zero_weights_neutral (ps ws : List ℝ) (hps : ps ≠ [])
    (hlen : ws.length = ps.length) (hw : ∀ w ∈ ws, w = 0) :
    aggregate_logit_space ps ws = .ok (inv_logit 0.5) :=
  aggregate_logit_space_zero_weights ps ws hps hlen hw

/-- Witness for C8 (amended) at a single probability 0.9 with weight 0. -/
theorem C8_zero_weights_neutral_witness :
    (([(0.9 : ℝ)] : List ℝ) ≠ [] ∧ ([(0 : ℝ)] : List ℝ).length = [(0.9 : ℝ)].length ∧
      (∀ w ∈ ([(0 : ℝ)] : List ℝ), w = 0)) ∧
    aggregate_logit_space [0.9] [0] = .ok (inv_logit 0.5) :=
  ⟨⟨by simp, by simp, by simp⟩,
   C8_zero_weights_neutral [0.9] [0] (by simp) (by simp) (by simp)⟩

lemma c6_value_eval : aggregate_logit_space [0.6, 0.8] [1, 2] =
    .ok (inv_logit ((1 * logit 0.6 + 2 * logit 0.8) / 3)) := by
  rw [aggregate_logit_space_two 0.6 0.8 1 2 (by norm_num),
    show (logit 0.6 * 1 + logit 0.8 * 2) / ((1 : ℝ) + 2) =
      (1 * logit 0.6 + 2 * logit 0.8) / 3 by ring]

lemma c6_exp_cube :
    Real.exp ((1 * logit 0.6 + 2 * logit 0.8) / 3) ^ 3 = 24 := by
  rw [← Real.exp_nat_mul]
  rw [show (3 : ℕ) * ((1 * logit 0.6 + 2 * logit 0.8) / 3) =
      logit 0.6 + 2 * logit 0.8 by push_cast; ring]
  rw [logit_point_six, logit_point_eight, Real.exp_add,
    show (2 : ℝ) * Real.log 4 = Real.log 4 + Real.log 4 by ring, Real.exp_add,
    Real.exp_log (by norm_num : (0:ℝ) < 3/2), Real.exp_log (by norm_num : (0:ℝ) < 4)]
  norm_num

lemma c6_y_bounds :
    2.87 < Real.exp ((1 * logit 0.6 + 2 * logit 0.8) / 3) ∧
    Real.exp ((1 * logit 0.6 + 2 * logit 0.8) / 3) < 2.9 := by
  have hy0 : (0 : ℝ) < Real.exp ((1 * logit 0.6 + 2 * logit 0.8) / 3) :=
    Real.exp_pos _
  have hy3 := c6_exp_cube
  constructor
  · by_contra hle
    push_neg at hle
    have h1 : Real.exp ((1 * logit 0.6 + 2 * logit 0.8) / 3) ^ 3 ≤ (2.87 : ℝ) ^ 3 :=
      pow_le_pow_left hy0.le hle 3
    rw [hy3] at h1
    norm_num at h1
  · by_contra hge
    push_neg at hge
    have h1 : (2.9 : ℝ) ^ 3 ≤ Real.exp ((1 * logit 0.6 + 2 * logit 0.8) / 3) ^ 3 :=
      pow_le_pow_left (by norm_num) hge 3
    rw [hy3] at h1
    norm_num at h1

/-- Counterexample to claim C6 as stated: the aggregate for probabilities
[0.6, 0.8] with weights [1, 2] equals
`inv_logit((1·logit(0.6)+2·logit(0.8))/3) = 24^(1/3)/(1+24^(1/3)) ≈ 0.7426`,
which is not within 1e-3 of 0.72. -/
theorem C6_counterexample_value :
    aggregate_logit_space [0.6, 0.8] [1, 2] =
      .ok (inv_logit ((1 * logit 0.6 + 2 * logit 0.8) / 3)) ∧
    ¬ |inv_logit ((1 * logit 0.6 + 2 * logit 0.8) / 3) - 0.72| ≤ 1/1000 := by
  refine ⟨c6_value_eval, ?_⟩
  have hy := c6_y_bounds
  have hy0 : (0 : ℝ) < Real.exp ((1 * logit 0.6 + 2 * logit 0.8) / 3) :=
    Real.exp_pos _
  rw [inv_logit_exp]
  set y := Real.exp ((1 * logit 0.6 + 2 * logit 0.8) / 3) with hydef
  have hr : (0.721 : ℝ) < y / (y + 1) := by
    rw [lt_div_iff (by linarith)]
    nlinarith [hy.1]
  intro habs
  rw [abs_le] at habs
  linarith [habs.2]

/-- Claim C6 (amended): for probabilities [0.6, 0.8] and weights [1, 2],
aggregation clamps each probability into [0.0001, 0.9999] (a no-op here),
takes the weighted mean of the logits and maps back through the logistic
function, giving `inv_logit((1·logit(0.6)+2·logit(0.8))/3) ≈ 0.7426`
within 1e-3 (not ≈ 0.72). -/
theorem C6_aggregate_value :
    aggregate_logit_space [0.6, 0.8] [1, 2] =
      .ok (inv_logit ((1 * logit 0.6 + 2 * logit 0.8) / 3)) ∧
    |inv_logit ((1 * logit 0.6 + 2 * logit 0.8) / 3) - 0.7426| < 1/1000 := by
  refine ⟨c6_value_eval, ?_⟩
  have hy := c6_y_bounds
  have hy0 : (0 : ℝ) < Real.exp ((1 * logit 0.6 + 2 * logit 0.8) / 3) :=
    Real.exp_pos _
  rw [inv_logit_exp]
  set y := Real.exp ((1 * logit 0.6 + 2 * logit 0.8) / 3) with hydef
  have h1 : (0.7416 : ℝ) < y / (y + 1) := by
    rw [lt_div_iff (by linarith)]
    nlinarith [hy.1]
  have h2 : y / (y + 1) < (0.7436 : ℝ) := by
    rw [div_lt_iff (by linarith)]
    nlinarith [hy.2]
  rw [abs_lt]
  constructor <;> [linarith; linarith]

end Vox



